import Mathlib

/-!
# Verification of the LLM Price Calculator core

A shallow embedding of the pricing pipeline of the LLM-Price-Calculator
repository:

* the `apiService` module (`fetchModels`, `guessProvider`, `parsePrice`,
  `calculateModelCost`),
* the derived-view computation of `App` (`tableData`, `chartData`), and
* the default-mode filter/cap of `CostChart`.

JavaScript numbers are modelled as exact rationals (`ℚ`); `parseFloat` is
modelled on its finite decimal fragment (whitespace, sign, digits,
fraction, exponent, longest-valid-prefix semantics; `Infinity` literals
are outside the model); string case conversion is modelled on the ASCII
fragment, which is the alphabet of the catalog ids the code inspects.
`localStorage` and the network are modelled as explicit values threaded
through `fetchModels`.
-/

namespace LLMPC

/-! ## Characters and strings: the JS fragments the code uses -/

/-- ASCII lowercasing of a single character, the fragment of JS
`String.prototype.toLowerCase` relevant to catalog ids. -/
def lowerChar (c : Char) : Char :=
  match c with
  | 'A' => 'a' | 'B' => 'b' | 'C' => 'c' | 'D' => 'd' | 'E' => 'e'
  | 'F' => 'f' | 'G' => 'g' | 'H' => 'h' | 'I' => 'i' | 'J' => 'j'
  | 'K' => 'k' | 'L' => 'l' | 'M' => 'm' | 'N' => 'n' | 'O' => 'o'
  | 'P' => 'p' | 'Q' => 'q' | 'R' => 'r' | 'S' => 's' | 'T' => 't'
  | 'U' => 'u' | 'V' => 'v' | 'W' => 'w' | 'X' => 'x' | 'Y' => 'y'
  | 'Z' => 'z'
  | c => c

/-- ASCII uppercasing of a single character (JS `toUpperCase` applied to
the first letter of a provider key). -/
def upperChar (c : Char) : Char :=
  match c with
  | 'a' => 'A' | 'b' => 'B' | 'c' => 'C' | 'd' => 'D' | 'e' => 'E'
  | 'f' => 'F' | 'g' => 'G' | 'h' => 'H' | 'i' => 'I' | 'j' => 'J'
  | 'k' => 'K' | 'l' => 'L' | 'm' => 'M' | 'n' => 'N' | 'o' => 'O'
  | 'p' => 'P' | 'q' => 'Q' | 'r' => 'R' | 's' => 'S' | 't' => 'T'
  | 'u' => 'U' | 'v' => 'V' | 'w' => 'W' | 'x' => 'X' | 'y' => 'Y'
  | 'z' => 'Z'
  | c => c

/-- JS `hay.includes(needle)` on character lists. -/
def containsSub : List Char → List Char → Bool
  | hay, needle =>
    needle.isPrefixOf hay ||
      match hay with
      | [] => false
      | _ :: t => containsSub t needle

/-! ## `parseFloat` (finite decimal fragment)

The scanner is kept purely syntactic (naturals and booleans only) and the
rational value is computed from the scan result; their composition is the
JS `parseFloat` semantics. -/

/-- Decimal digit test, `'0' ≤ c ≤ '9'`. -/
def isDigitC (c : Char) : Bool := '0' ≤ c && c ≤ '9'

/-- Numeric value of a digit character. -/
def digVal (c : Char) : ℕ := c.toNat - 48

/-- Consume a maximal run of decimal digits, folding them onto an
accumulator; returns the accumulated value, the number of digits
consumed, and the remaining characters. -/
def readDigits : List Char → ℕ → ℕ → ℕ × ℕ × List Char
  | [], acc, k => (acc, k, [])
  | c :: cs, acc, k =>
    if isDigitC c then readDigits cs (acc * 10 + digVal c) (k + 1)
    else (acc, k, c :: cs)

/-- Optional leading sign of a decimal literal; `true` means negative. -/
def splitSignB (l : List Char) : Bool × List Char :=
  match l with
  | [] => (false, [])
  | c :: t =>
    if c = '-' then (true, t)
    else if c = '+' then (false, t)
    else (false, c :: t)

/-- Scan the text after an exponent marker: an optional sign and a digit
run; a marker not followed by a digit contributes no exponent, matching
`parseFloat`'s longest-valid-prefix rule.  (On an empty or unsigned
tail this reads the digits of the tail itself, exactly as the source's
`parseFloat` grammar does.) -/
def scanExpTail (t : List Char) : Bool × ℕ :=
  match t with
  | [] => (false, 0)
  | u0 :: u =>
    if u0 = '-' then
      let d := readDigits u 0 0
      if d.2.1 = 0 then (false, 0) else (true, d.1)
    else if u0 = '+' then
      let d := readDigits u 0 0
      if d.2.1 = 0 then (false, 0) else (false, d.1)
    else
      let d := readDigits (u0 :: u) 0 0
      if d.2.1 = 0 then (false, 0) else (false, d.1)

/-- Scan an optional exponent part (`e`/`E`, optional sign, digits),
returning (exponent is negative, exponent magnitude). -/
def scanExp (r : List Char) : Bool × ℕ :=
  match r with
  | [] => (false, 0)
  | c :: t => if c = 'e' ∨ c = 'E' then scanExpTail t else (false, 0)

/-- The syntactic content of a successfully scanned decimal literal:
sign, integer-part value, fraction-part value, number of fraction
digits, exponent sign and exponent magnitude. -/
structure ParsedNum where
  neg : Bool
  ip : ℕ
  fp : ℕ
  fk : ℕ
  expNeg : Bool
  ev : ℕ
deriving DecidableEq

/-- Scan an optional fraction part: a `.` followed by a digit run; any
other shape contributes no fraction digits. -/
def scanFrac (r : List Char) : ℕ × ℕ × List Char :=
  match r with
  | [] => (0, 0, [])
  | c :: t => if c = '.' then readDigits t 0 0 else (0, 0, c :: t)

/-- Scan a JS decimal literal prefix: skip whitespace, optional sign,
digits with optional fraction, optional exponent; `none` models `NaN`
(no digit in the mantissa).  The `Infinity` production of the JS
grammar is not modelled (a rational-valued model cannot represent the
source's `parseFloat("Infinity…") = Infinity`); statements that
quantify over strings therefore exclude `Infinity` literals explicitly
where the distinction matters. -/
def scanFloat (l : List Char) : Option ParsedNum :=
  let p := splitSignB (l.dropWhile Char.isWhitespace)
  let d1 := readDigits p.2 0 0
  let d2 := scanFrac d1.2.2
  if d1.2.1 + d2.2.1 = 0 then none
  else
    let e := scanExp d2.2.2
    some ⟨p.1, d1.1, d2.1, d2.2.1, e.1, e.2⟩

/-- The rational value denoted by a scanned decimal literal. -/
def valOf (p : ParsedNum) : ℚ :=
  (if p.neg then -1 else 1) *
    (((p.ip : ℚ) + (p.fp : ℚ) / (10 : ℚ) ^ p.fk) *
      (if p.expNeg then ((10 : ℚ) ^ p.ev)⁻¹ else (10 : ℚ) ^ p.ev))

/-- JS `parseFloat` on character lists (finite decimal fragment). -/
def parseFloatL (l : List Char) : Option ℚ := (scanFloat l).map valOf

/-! ## Data model (types.ts) -/

/-- A raw price field as delivered by the catalog JSON:
`undefined`/`null`, a string, or a number. -/
inductive PriceField
  | absent
  | str (s : String)
  | num (q : ℚ)
deriving DecidableEq

/-- The `pricing` sub-object of a raw catalog entry. -/
structure RawPricing where
  prompt : PriceField
  completion : PriceField
deriving DecidableEq

/-- A raw catalog entry (`OpenRouterModel` in types.ts); only the fields
the core reads are modelled, matching the spec's "arbitrary extra fields
ignored". -/
structure OpenRouterModel where
  id : String
  name : String
  context_length : Option Int
  pricing : Option RawPricing
deriving DecidableEq

/-- The normalized record (`UnifiedModelData` in types.ts). -/
structure UnifiedModelData where
  id : String
  name : String
  provider : String
  inputPricePerMillion : ℚ
  outputPricePerMillion : ℚ
  contextWindow : Int
deriving DecidableEq

/-- A cost breakdown (`CostCalculation` in types.ts). -/
structure CostCalculation where
  model : UnifiedModelData
  inputCost : ℚ
  outputCost : ℚ
  totalCost : ℚ
deriving DecidableEq

/-- Sort fields (`SortField` in types.ts). -/
inductive SortField
  | name | provider | inputPrice | outputPrice | totalCost | contextWindow
deriving DecidableEq

/-- Sort directions (`SortOrder` in types.ts). -/
inductive SortOrder
  | asc | desc
deriving DecidableEq

/-! ## apiService: provider inference, price sanitization, normalization -/

/-- Capitalize a provider key: `key.charAt(0).toUpperCase() + key.slice(1)`
(an empty key yields the empty string, as in JS). -/
def capitalizeKey (l : List Char) : String :=
  match l with
  | [] => ""
  | c :: cs => String.mk (upperChar c :: cs)

/-- Source `guessProvider` from apiService: a fixed ordered prefix table over the
lowercased id, then capitalization of the namespace before the first `/`,
then the sentinel `"Other"`.  (`parts.length > 1` after `id.split('/')`
holds exactly when the id contains a `/`, and `parts[0]` is the text
before the first `/`.)  The `name` argument is received and ignored, as
in the source. -/
def guessProvider (id _name : String) : String :=
  let lowerId := id.data.map lowerChar
  if ("openai/".data).isPrefixOf lowerId then "OpenAI"
  else if ("google/".data).isPrefixOf lowerId then "Google"
  else if ("anthropic/".data).isPrefixOf lowerId then "Anthropic"
  else if ("mistral".data).isPrefixOf lowerId then "Mistral"
  else if ("meta-llama/".data).isPrefixOf lowerId then "Meta"
  else if ("meta/".data).isPrefixOf lowerId then "Meta"
  else if ("cohere/".data).isPrefixOf lowerId then "Cohere"
  else if ("deepseek/".data).isPrefixOf lowerId then "DeepSeek"
  else if ("qwen/".data).isPrefixOf lowerId then "Alibaba"
  else if ("microsoft/".data).isPrefixOf lowerId then "Microsoft"
  else if ("perplexity/".data).isPrefixOf lowerId then "Perplexity"
  else if id.data.contains '/' then
    capitalizeKey ((id.data.takeWhile (fun c => c ≠ '/')).map lowerChar)
  else "Other"

/-- Source `parsePrice` from apiService: `undefined`/`null` ↦ 0; otherwise
`parseFloat(String(value))`, `NaN` ↦ 0, and `Math.max(0, parsed)`.  For a
number the `String`/`parseFloat` round trip is the identity, so the
numeric case clamps the number itself. -/
def parsePrice : PriceField → ℚ
  | .absent => 0
  | .num q => max 0 q
  | .str s =>
    match parseFloatL s.data with
    | none => 0
    | some v => max 0 v

/-- The effective `pricing?.prompt` of a raw entry (optional chaining). -/
def promptOf (m : OpenRouterModel) : PriceField :=
  match m.pricing with
  | none => .absent
  | some p => p.prompt

/-- The effective `pricing?.completion` of a raw entry. -/
def completionOf (m : OpenRouterModel) : PriceField :=
  match m.pricing with
  | none => .absent
  | some p => p.completion

/-- JS `x || 0` on an optional number: `undefined` and `0` are falsy and
yield the default; any other number (including a negative one) is truthy
and passes through unchanged. -/
def jsOrInt (x : Option Int) (d : Int) : Int :=
  match x with
  | none => d
  | some n => if n = 0 then d else n

/-- The per-entry normalization performed inside `fetchModels`'s
`rawModels.map`. -/
def normalize (m : OpenRouterModel) : UnifiedModelData :=
  { id := m.id
    name := m.name
    provider := guessProvider m.id m.name
    inputPricePerMillion := parsePrice (promptOf m) * 1000000
    outputPricePerMillion := parsePrice (completionOf m) * 1000000
    contextWindow := jsOrInt m.context_length 0 }

/-- Source `calculateModelCost` from apiService. -/
def calculateModelCost (model : UnifiedModelData) (inputTokens outputTokens : ℚ) :
    CostCalculation :=
  let inputCost := inputTokens / 1000000 * model.inputPricePerMillion
  let outputCost := outputTokens / 1000000 * model.outputPricePerMillion
  { model := model
    inputCost := inputCost
    outputCost := outputCost
    totalCost := inputCost + outputCost }

/-! ## apiService: the cache gateway (`fetchModels`)

The `localStorage` slot under `CACHE_KEY` is modelled as
`Option CacheBlob`: absent, present but not JSON-parseable as a
`CacheData` (`corrupt`), or a parseable entry.  The outcome of the
network interaction is modelled as `FetchResult`: transport failure or a
non-ok / non-JSON response (`fail`, which the code turns into a thrown
error), an ok JSON response whose `data` is not an array (`okNotArray`),
or an array of raw entries.  `fetchModels` returns the call's result
together with the cache slot after the call. -/

/-- Source `CACHE_DURATION` (1 hour in milliseconds). -/
def CACHE_DURATION : Int := 1000 * 60 * 60

/-- A parsed cache entry (`CacheData` in apiService). -/
structure CacheData where
  timestamp : Int
  models : List UnifiedModelData
deriving DecidableEq

/-- The stored cache value: unparseable JSON, or a parsed entry. -/
inductive CacheBlob
  | corrupt
  | entry (e : CacheData)
deriving DecidableEq

/-- Outcome of the network interaction of one `fetchModels` call. -/
inductive FetchResult
  | fail
  | okNotArray
  | okArray (raw : List OpenRouterModel)
deriving DecidableEq

/-- Whether the network fetch / response validation failed (both throw
into the same `catch` block in the source). -/
def netFails : FetchResult → Bool
  | .fail => true
  | .okNotArray => true
  | .okArray _ => false

/-- The `try { fetch … } catch { … }` part of `fetchModels`.  `origCache`
is the string read at the start of the call (the local `cached`
variable, re-parsed in the catch block); `store` is the cache slot as it
stands when the fetch is attempted. -/
def attemptFetch (now : Int) (net : FetchResult) (origCache : Option CacheBlob)
    (store : Option CacheBlob) :
    Except Unit (List UnifiedModelData) × Option CacheBlob :=
  match net with
  | .okArray raw =>
    let ms := raw.map normalize
    (.ok ms, some (.entry ⟨now, ms⟩))
  | _ =>
    match origCache with
    | some (.entry e) => (.ok e.models, store)
    | some .corrupt => (.error (), store)
    | none => (.error (), store)

/-- Source `fetchModels` from apiService: use the cache if fresh, otherwise
fetch; on fetch failure fall back to any originally read cache string
that re-parses, else rethrow.  A corrupt cache value is removed in step 1
but the original string is still what the catch block re-parses (and it
fails again there). -/
def fetchModels (now : Int) (cache : Option CacheBlob) (net : FetchResult) :
    Except Unit (List UnifiedModelData) × Option CacheBlob :=
  match cache with
  | some (.entry e) =>
    if now - e.timestamp < CACHE_DURATION then (.ok e.models, cache)
    else attemptFetch now net cache cache
  | some .corrupt => attemptFetch now net cache none
  | none => attemptFetch now net none none

/-! ## App: derived views (`tableData`, `chartData`) and the CostChart cap -/

/-- The three-way JS comparator body used for one sort key:
`if (valA < valB) return order === 'asc' ? -1 : 1; if (valA > valB) …;
return 0`. -/
def cmpVal {α : Type} [LinearOrder α] (o : SortOrder) (x y : α) : Int :=
  if x < y then (match o with | .asc => -1 | .desc => 1)
  else if y < x then (match o with | .asc => 1 | .desc => -1)
  else 0

/-- The requested-field comparison of `tableData`'s comparator. -/
def fieldCmp (f : SortField) (o : SortOrder) (a b : CostCalculation) : Int :=
  match f with
  | .name => cmpVal o a.model.name b.model.name
  | .provider => cmpVal o a.model.provider b.model.provider
  | .contextWindow => cmpVal o a.model.contextWindow b.model.contextWindow
  | .inputPrice => cmpVal o a.model.inputPricePerMillion b.model.inputPricePerMillion
  | .outputPrice => cmpVal o a.model.outputPricePerMillion b.model.outputPricePerMillion
  | .totalCost => cmpVal o a.totalCost b.totalCost

/-- Whether a record's model id is in the selection set. -/
def isSel (sel : List String) (a : CostCalculation) : Bool :=
  sel.contains a.model.id

/-- The full comparator of `tableData`: selected ids first, then the
requested field in the requested direction. -/
def tableCmp (sel : List String) (f : SortField) (o : SortOrder)
    (a b : CostCalculation) : Int :=
  if isSel sel a && !isSel sel b then -1
  else if !isSel sel a && isSel sel b then 1
  else fieldCmp f o a b

/-- The comparator as a boolean "may come before" relation; JS
`Array.prototype.sort` is a stable sort by the comparator, which for a
total preorder comparator is exactly a stable merge sort with this
relation. -/
def tableLe (sel : List String) (f : SortField) (o : SortOrder)
    (a b : CostCalculation) : Bool :=
  decide (tableCmp sel f o a b ≤ 0)

/-- The sort stage of `tableData`: a stable sort by the comparator.
ECMAScript guarantees `Array.prototype.sort` is stable, and for a
total-preorder comparator the stable sorted output is unique, so any
stable sorting algorithm is a faithful model; a structural insertion
sort is used so the function also evaluates by kernel reduction. -/
def sortRecords (sel : List String) (f : SortField) (o : SortOrder)
    (l : List CostCalculation) : List CostCalculation :=
  l.insertionSort (fun a b => tableLe sel f o a b = true)

/-- The filter stage of `tableData`: provider equality (unless "All"),
then case-insensitive substring match of the search text against model
name or id (unless the search text is empty, which is falsy in JS). -/
def filterTable (selectedProvider search : String) (data : List CostCalculation) :
    List CostCalculation :=
  let d1 :=
    if selectedProvider ≠ "All" then
      data.filter (fun d => d.model.provider == selectedProvider)
    else data
  if search ≠ "" then
    let q := search.data.map lowerChar
    d1.filter (fun d =>
      containsSub (d.model.name.data.map lowerChar) q ||
        containsSub (d.model.id.data.map lowerChar) q)
  else d1

/-- Source `tableData` from App: filter, then sort with the pinned-selection
comparator. -/
def tableData (allCosts : List CostCalculation) (selectedProvider search : String)
    (f : SortField) (o : SortOrder) (sel : List String) : List CostCalculation :=
  sortRecords sel f o (filterTable selectedProvider search allCosts)

/-- Source `chartData` from App: with a non-empty selection, the selected
records from the full cost-annotated set; otherwise the table data. -/
def chartData (sel : List String) (allCosts tableD : List CostCalculation) :
    List CostCalculation :=
  if 0 < sel.length then allCosts.filter (fun d => sel.contains d.model.id)
  else tableD

/-- The record-level selection performed by `CostChart`: in selection
mode exactly the passed records; in default mode the cost-positive
records capped to the first 15 (`filter(totalCost > 0).slice(0, 15)`).
The subsequent per-record mapping to display rows is presentation. -/
def costChartRecords (isSelectionMode : Bool) (data : List CostCalculation) :
    List CostCalculation :=
  if isSelectionMode then data
  else (data.filter (fun d => decide (0 < d.totalCost))).take 15

/-- The chart view as rendered by App + CostChart:
`isSelectionMode = selectedModelIds.size > 0`. -/
def chartView (sel : List String) (allCosts tableD : List CostCalculation) :
    List CostCalculation :=
  costChartRecords (decide (0 < sel.length)) (chartData sel allCosts tableD)

example : guessProvider "anthropic/claude-3" "x" = "Anthropic" := by decide
example : guessProvider "mistral-large" "x" = "Mistral" := by decide
example : guessProvider "foobar" "x" = "Other" := by decide
example : guessProvider "acme/z" "x" = "Acme" := by decide
example : scanFloat "0.000003".data = some ⟨false, 0, 3, 6, false, 0⟩ := by decide
example : scanFloat "-1 per token".data = some ⟨true, 1, 0, 0, false, 0⟩ := by decide
example : scanFloat "abc".data = none := by decide
example : scanFloat "1e3x".data = some ⟨false, 1, 0, 0, false, 3⟩ := by decide
example : scanFloat "1e-2".data = some ⟨false, 1, 0, 0, true, 2⟩ := by decide
example : scanFloat "1e".data = some ⟨false, 1, 0, 0, false, 0⟩ := by decide
example : scanFloat " .5".data = some ⟨false, 0, 5, 1, false, 0⟩ := by decide

/-! ## General-purpose lemmas about the parser and the id scanner -/

/-- A successful scan determines the `parseFloat` value. -/
lemma parseFloatL_eq_of_scan (l : List Char) (p : ParsedNum)
    (h : scanFloat l = some p) : parseFloatL l = some (valOf p) := by
  rw [parseFloatL, h]; rfl

/-- A successful scan determines the sanitized price of a string field. -/
lemma parsePrice_str_eq (s : String) (p : ParsedNum)
    (h : scanFloat s.data = some p) : parsePrice (.str s) = max 0 (valOf p) := by
  simp only [parsePrice, parseFloatL_eq_of_scan s.data p h]

/-- Every character of a boolean-checked prefix occurs in the list. -/
lemma mem_of_isPrefixOf : ∀ {p l : List Char}, p.isPrefixOf l = true →
    ∀ c ∈ p, c ∈ l := by
  intro p
  induction p with
  | nil => intro l _ c hc; simp at hc
  | cons a as ih =>
    intro l h c hc
    cases l with
    | nil => simp [List.isPrefixOf] at h
    | cons b bs =>
      simp only [List.isPrefixOf, Bool.and_eq_true, beq_iff_eq] at h
      rcases List.mem_cons.mp hc with hca | hcas
      · exact hca ▸ h.1 ▸ List.mem_cons_self b bs
      · exact List.mem_cons_of_mem b (ih h.2 c hcas)

/-- ASCII lowercasing maps only `'/'` to `'/'`. -/
lemma lowerChar_eq_slash {c : Char} (h : lowerChar c = '/') : c = '/' := by
  unfold lowerChar at h
  split at h <;> first | exact h | exact absurd h (by decide)

/-- If an id has no slash, no pattern containing a slash is a prefix of
its lowercased form. -/
lemma slash_not_pref {id : String} (h1 : id.data.contains '/' = false)
    {p : List Char} (hp : '/' ∈ p) :
    p.isPrefixOf (id.data.map lowerChar) = false := by
  cases htest : p.isPrefixOf (id.data.map lowerChar) with
  | false => rfl
  | true =>
    have hmem : '/' ∈ id.data.map lowerChar := mem_of_isPrefixOf htest '/' hp
    obtain ⟨c, hc, hlc⟩ := List.mem_map.mp hmem
    have hceq : c = '/' := lowerChar_eq_slash hlc
    subst hceq
    have : id.data.contains '/' = true := List.elem_eq_true_of_mem hc
    rw [h1] at this
    exact absurd this (by decide)

/-! ## Claim C7 — provider inference on slash-free ids -/

/-- C7 counterexample: the id `"mistral-large"` contains no `/`, yet
`guessProvider` yields `"Mistral"`, not the sentinel `"Other"` — the
`mistral` rule of the prefix table is the only one that does not require
a slash. -/
theorem c7_slash_free_not_always_other :
    "mistral-large".data.contains '/' = false ∧
    guessProvider "mistral-large" "m" = "Mistral" ∧
    guessProvider "mistral-large" "m" ≠ "Other" := by
  refine ⟨by decide, by decide, by decide⟩

/-- C7 (amended): for every raw entry whose id contains no `/` and whose
lowercased id does not start with `"mistral"`, provider inference yields
the sentinel `"Other"`; the inference is deterministic and total by
construction (it is a pure function of the entry). -/
theorem c7_slash_free_provider_other (id name : String)
    (h1 : id.data.contains '/' = false)
    (h2 : ("mistral".data).isPrefixOf (id.data.map lowerChar) = false) :
    guessProvider id name = "Other" := by
  have hA : ("openai/".data).isPrefixOf (id.data.map lowerChar) = false :=
    slash_not_pref h1 (by decide)
  have hB : ("google/".data).isPrefixOf (id.data.map lowerChar) = false :=
    slash_not_pref h1 (by decide)
  have hC : ("anthropic/".data).isPrefixOf (id.data.map lowerChar) = false :=
    slash_not_pref h1 (by decide)
  have hD : ("meta-llama/".data).isPrefixOf (id.data.map lowerChar) = false :=
    slash_not_pref h1 (by decide)
  have hE : ("meta/".data).isPrefixOf (id.data.map lowerChar) = false :=
    slash_not_pref h1 (by decide)
  have hF : ("cohere/".data).isPrefixOf (id.data.map lowerChar) = false :=
    slash_not_pref h1 (by decide)
  have hG : ("deepseek/".data).isPrefixOf (id.data.map lowerChar) = false :=
    slash_not_pref h1 (by decide)
  have hH : ("qwen/".data).isPrefixOf (id.data.map lowerChar) = false :=
    slash_not_pref h1 (by decide)
  have hI : ("microsoft/".data).isPrefixOf (id.data.map lowerChar) = false :=
    slash_not_pref h1 (by decide)
  have hJ : ("perplexity/".data).isPrefixOf (id.data.map lowerChar) = false :=
    slash_not_pref h1 (by decide)
  simp only [guessProvider, hA, hB, hC, hD, hE, hF, hG, hH, hI, hJ, h1, h2,
    Bool.false_eq_true, if_false]

/-- Witness for C7 (amended) at the slash-free id `"foobar"`. -/
theorem c7_witness : guessProvider "foobar" "n" = "Other" :=
  c7_slash_free_provider_other "foobar" "n" (by decide) (by decide)

/-! ## Claim C9 — context window pass-through -/

/-- A raw entry with a negative context length. -/
def entryC9 : OpenRouterModel :=
  { id := "x", name := "x", context_length := some (-5), pricing := none }

/-- C9 counterexample: a negative provided context length is truthy for
JS `||`, so it passes through the `model.context_length || 0` default
unchanged; the normalized `contextWindow` is `-5`, not `0`. -/
theorem c9_negative_context_passes_through :
    (normalize entryC9).contextWindow = -5 ∧ ((-5 : Int) ≠ 0) := by
  constructor
  · show jsOrInt (some (-5)) 0 = -5
    decide
  · decide

/-- C9 (amended): `contextWindow` equals the provided context length
when that is present and nonzero (negative values included), and `0`
when the context length is absent or zero; it is non-negative whenever
the provided value is non-negative. -/
theorem c9_context_window_default (m : OpenRouterModel) :
    (m.context_length = none → (normalize m).contextWindow = 0) ∧
    (m.context_length = some 0 → (normalize m).contextWindow = 0) ∧
    (∀ n : Int, m.context_length = some n → n ≠ 0 →
      (normalize m).contextWindow = n) ∧
    (∀ n : Int, m.context_length = some n → 0 ≤ n →
      0 ≤ (normalize m).contextWindow) := by
  have hcw : (normalize m).contextWindow = jsOrInt m.context_length 0 := rfl
  refine ⟨?_, ?_, ?_, ?_⟩
  · intro h; rw [hcw, h]; rfl
  · intro h; rw [hcw, h]; rfl
  · intro n h hn; rw [hcw, h]; simp [jsOrInt, hn]
  · intro n h hn
    rw [hcw, h]
    simp only [jsOrInt]
    split <;> omega

/-- A raw entry with context length `7`, for the C9 witness. -/
def entryC9w : OpenRouterModel :=
  { id := "y", name := "y", context_length := some 7, pricing := none }

/-- Witness for C9 (amended) at a provided context length of `7`. -/
theorem c9_witness : (normalize entryC9w).contextWindow = 7 :=
  (c9_context_window_default entryC9w).2.2.1 7 rfl (by decide)

/-! ## Claim C6 — the spec's worked example -/

/-- The raw entry of the spec's worked example. -/
def entryC6 : OpenRouterModel :=
  { id := "anthropic/claude-3", name := "Claude 3",
    context_length := some 200000,
    pricing := some { prompt := .str "0.000003", completion := .str "0.000015" } }

/-- The prompt price of the example entry sanitizes to `3·10⁻⁶`. -/
lemma parsePrice_entryC6_prompt : parsePrice (promptOf entryC6) = 3 / 1000000 := by
  have h : scanFloat "0.000003".data = some ⟨false, 0, 3, 6, false, 0⟩ := by decide
  have hp : promptOf entryC6 = .str "0.000003" := rfl
  rw [hp, parsePrice_str_eq _ _ h, valOf]
  norm_num

/-- The completion price of the example entry sanitizes to `15·10⁻⁶`. -/
lemma parsePrice_entryC6_completion :
    parsePrice (completionOf entryC6) = 15 / 1000000 := by
  have h : scanFloat "0.000015".data = some ⟨false, 0, 15, 6, false, 0⟩ := by decide
  have hp : completionOf entryC6 = .str "0.000015" := rfl
  rw [hp, parsePrice_str_eq _ _ h, valOf]
  norm_num

/-- Normalized input price of the example entry. -/
lemma entryC6_in : (normalize entryC6).inputPricePerMillion = 3 := by
  show parsePrice (promptOf entryC6) * 1000000 = 3
  rw [parsePrice_entryC6_prompt]; norm_num

/-- Normalized output price of the example entry. -/
lemma entryC6_out : (normalize entryC6).outputPricePerMillion = 15 := by
  show parsePrice (completionOf entryC6) * 1000000 = 15
  rw [parsePrice_entryC6_completion]; norm_num

/-- Input cost of the example at 20000 input tokens. -/
lemma entryC6_inputCost :
    (calculateModelCost (normalize entryC6) 20000 100000).inputCost = 0.06 := by
  show (20000 : ℚ) / 1000000 * (normalize entryC6).inputPricePerMillion = 0.06
  rw [entryC6_in]; norm_num

/-- Output cost of the example at 100000 output tokens. -/
lemma entryC6_outputCost :
    (calculateModelCost (normalize entryC6) 20000 100000).outputCost = 1.5 := by
  show (100000 : ℚ) / 1000000 * (normalize entryC6).outputPricePerMillion = 1.5
  rw [entryC6_out]; norm_num

/-- Total cost of the example. -/
lemma entryC6_totalCost :
    (calculateModelCost (normalize entryC6) 20000 100000).totalCost = 1.56 := by
  show (20000 : ℚ) / 1000000 * (normalize entryC6).inputPricePerMillion +
    (100000 : ℚ) / 1000000 * (normalize entryC6).outputPricePerMillion = 1.56
  rw [entryC6_in, entryC6_out]; norm_num

/-- C6 counterexample: the costs claimed by the spec's example
(`0.00006`, `0.0015`, `0.00156`) are a factor 1000 smaller than what the
code computes; in particular the conjunction claimed for this entry is
false (the actual total cost is `1.56`). -/
theorem c6_spec_example_costs_false :
    ¬ ((calculateModelCost (normalize entryC6) 20000 100000).inputCost = 0.00006 ∧
       (calculateModelCost (normalize entryC6) 20000 100000).outputCost = 0.0015 ∧
       (calculateModelCost (normalize entryC6) 20000 100000).totalCost = 0.00156) := by
  intro h
  have := entryC6_totalCost.symm.trans h.2.2
  norm_num at this

/-- C6 (amended): the example entry normalizes to per-million prices 3
and 15 and provider "Anthropic"; with 20000 input and 100000 output
tokens the computed costs are `inputCost = 0.06`, `outputCost = 1.5`,
`totalCost = 1.56`. -/
theorem c6_example_normalization_and_costs :
    (normalize entryC6).inputPricePerMillion = 3 ∧
    (normalize entryC6).outputPricePerMillion = 15 ∧
    (normalize entryC6).provider = "Anthropic" ∧
    (calculateModelCost (normalize entryC6) 20000 100000).inputCost = 0.06 ∧
    (calculateModelCost (normalize entryC6) 20000 100000).outputCost = 1.5 ∧
    (calculateModelCost (normalize entryC6) 20000 100000).totalCost = 1.56 :=
  ⟨entryC6_in, entryC6_out, by decide, entryC6_inputCost, entryC6_outputCost,
    entryC6_totalCost⟩

/-! ## Claim C8 — price sanitization invariants -/

/-- Sanitized prices are never negative. -/
lemma parsePrice_nonneg (pf : PriceField) : 0 ≤ parsePrice pf := by
  cases pf with
  | absent => simp [parsePrice]
  | num q => simp [parsePrice]
  | str s =>
    simp only [parsePrice]
    cases h : parseFloatL s.data with
    | none => simp
    | some v => simp

/-- A string price that parses to `NaN` sanitizes to zero. -/
lemma parsePrice_str_none (s : String) (h : parseFloatL s.data = none) :
    parsePrice (.str s) = 0 := by
  simp only [parsePrice, h]

/-- A string price that parses to a negative number sanitizes to zero. -/
lemma parsePrice_str_neg (s : String) (v : ℚ) (h : parseFloatL s.data = some v)
    (hv : v < 0) : parsePrice (.str s) = 0 := by
  simp only [parsePrice, h]
  exact max_eq_left hv.le

/-- A negative numeric price sanitizes to zero. -/
lemma parsePrice_num_neg (q : ℚ) (hq : q < 0) : parsePrice (.num q) = 0 :=
  max_eq_left hq.le

/-- C8: every normalized record has non-negative per-million prices, and
an absent, unparseable, or negative raw price field yields price `0`. -/
theorem c8_prices_sanitized (m : OpenRouterModel) :
    0 ≤ (normalize m).inputPricePerMillion ∧
    0 ≤ (normalize m).outputPricePerMillion ∧
    (promptOf m = .absent → (normalize m).inputPricePerMillion = 0) ∧
    (∀ s, promptOf m = .str s → parseFloatL s.data = none →
      (normalize m).inputPricePerMillion = 0) ∧
    (∀ s v, promptOf m = .str s → parseFloatL s.data = some v → v < 0 →
      (normalize m).inputPricePerMillion = 0) ∧
    (∀ q, promptOf m = .num q → q < 0 →
      (normalize m).inputPricePerMillion = 0) ∧
    (completionOf m = .absent → (normalize m).outputPricePerMillion = 0) ∧
    (∀ s, completionOf m = .str s → parseFloatL s.data = none →
      (normalize m).outputPricePerMillion = 0) ∧
    (∀ s v, completionOf m = .str s → parseFloatL s.data = some v → v < 0 →
      (normalize m).outputPricePerMillion = 0) ∧
    (∀ q, completionOf m = .num q → q < 0 →
      (normalize m).outputPricePerMillion = 0) := by
  have hin : (normalize m).inputPricePerMillion = parsePrice (promptOf m) * 1000000 := rfl
  have hout : (normalize m).outputPricePerMillion = parsePrice (completionOf m) * 1000000 := rfl
  refine ⟨?_, ?_, ?_, ?_, ?_, ?_, ?_, ?_, ?_, ?_⟩
  · rw [hin]; exact mul_nonneg (parsePrice_nonneg _) (by norm_num)
  · rw [hout]; exact mul_nonneg (parsePrice_nonneg _) (by norm_num)
  · intro h; rw [hin, h]; simp [parsePrice]
  · intro s h hp; rw [hin, h, parsePrice_str_none s hp, zero_mul]
  · intro s v h hp hv; rw [hin, h, parsePrice_str_neg s v hp hv, zero_mul]
  · intro q h hq; rw [hin, h, parsePrice_num_neg q hq, zero_mul]
  · intro h; rw [hout, h]; simp [parsePrice]
  · intro s h hp; rw [hout, h, parsePrice_str_none s hp, zero_mul]
  · intro s v h hp hv; rw [hout, h, parsePrice_str_neg s v hp hv, zero_mul]
  · intro q h hq; rw [hout, h, parsePrice_num_neg q hq, zero_mul]

/-- A raw entry with a negative numeric prompt price, for the C8
witness. -/
def entryC8 : OpenRouterModel :=
  { id := "z", name := "z", context_length := none,
    pricing := some { prompt := .num (-2), completion := .absent } }

/-- Witness for C8: a negative numeric prompt price sanitizes to
price 0. -/
theorem c8_witness : (normalize entryC8).inputPricePerMillion = 0 :=
  (c8_prices_sanitized entryC8).2.2.2.2.2.1 (-2) rfl (by norm_num)

/-! ## Claim C10 — `parseFloat` prefix parsing inside `parsePrice` -/

/-- Numeric value of a digit run. -/
def natVal (ds : List Char) : ℕ := ds.foldl (fun a c => a * 10 + digVal c) 0

/-- Whether the remaining text cannot extend a scanned numeral: empty,
or starting with a character that is not a digit, a dot, or an exponent
marker. -/
def noExtendB : List Char → Bool
  | [] => true
  | c :: _ => !isDigitC c && !(c == '.') && !(c == 'e') && !(c == 'E')

/-- Unpack `noExtendB` on a non-empty list. -/
lemma noExtendB_cons {c : Char} {t : List Char} (h : noExtendB (c :: t) = true) :
    isDigitC c = false ∧ c ≠ '.' ∧ c ≠ 'e' ∧ c ≠ 'E' := by
  simp only [noExtendB, Bool.and_eq_true, Bool.not_eq_true', beq_eq_false_iff_ne,
    ne_eq] at h
  exact ⟨h.1.1.1, h.1.1.2, h.1.2, h.2⟩

/-- Digits are not whitespace. -/
lemma not_ws_of_digit {c : Char} (h : isDigitC c = true) : c.isWhitespace = false := by
  cases hw : c.isWhitespace with
  | false => rfl
  | true =>
    exfalso
    simp only [Char.isWhitespace, Bool.or_eq_true, decide_eq_true_eq] at hw
    rcases hw with ((rfl | rfl) | rfl) | rfl <;>
      exact absurd h (by decide)

/-- Digits are not a minus sign. -/
lemma digit_ne_dash {c : Char} (h : isDigitC c = true) : c ≠ '-' := by
  intro he; subst he; exact absurd h (by decide)

/-- Digits are not a plus sign. -/
lemma digit_ne_plus {c : Char} (h : isDigitC c = true) : c ≠ '+' := by
  intro he; subst he; exact absurd h (by decide)

/-- A list starting with a non-sign character is not stripped by
`splitSignB`. -/
lemma splitSignB_of_ne {c : Char} (t : List Char) (h1 : c ≠ '-') (h2 : c ≠ '+') :
    splitSignB (c :: t) = (false, c :: t) := by
  simp [splitSignB, h1, h2]

/-- Reading digits through a digit run stops at the first non-digit. -/
lemma readDigits_append (ds : List Char) (hds : ∀ c ∈ ds, isDigitC c = true) :
    ∀ (r : List Char) (acc k : ℕ), (∀ c t, r = c :: t → isDigitC c = false) →
      readDigits (ds ++ r) acc k =
        (ds.foldl (fun a c => a * 10 + digVal c) acc, k + ds.length, r) := by
  induction ds with
  | nil =>
    intro r acc k hr
    cases r with
    | nil => simp [readDigits]
    | cons c t => simp [readDigits, hr c t rfl]
  | cons d ds ih =>
    intro r acc k hr
    have hd : isDigitC d = true := hds d (List.mem_cons_self _ _)
    have hds2 : ∀ c ∈ ds, isDigitC c = true :=
      fun c hc => hds c (List.mem_cons_of_mem _ hc)
    simp only [List.cons_append, readDigits, hd, if_true, List.append_eq]
    rw [ih hds2 r _ _ hr]
    simp only [List.foldl_cons, List.length_cons, Prod.mk.injEq, true_and,
      and_true]
    omega

/-- Reading digits from a non-digit (or empty) head consumes nothing. -/
lemma readDigits_nodigit (r : List Char) (acc k : ℕ)
    (h : ∀ c t, r = c :: t → isDigitC c = false) :
    readDigits r acc k = (acc, k, r) := by
  cases r with
  | nil => simp [readDigits]
  | cons c t => simp [readDigits, h c t rfl]

/-- Text that cannot extend a numeral contributes no fraction part. -/
lemma scanFrac_noExtend (r : List Char) (hr : noExtendB r = true) :
    scanFrac r = (0, 0, r) := by
  cases r with
  | nil => rfl
  | cons c t =>
    have h := noExtendB_cons hr
    simp [scanFrac, h.2.1]

/-- Text that cannot extend a numeral contributes no exponent. -/
lemma scanExp_noExtend (r : List Char) (hr : noExtendB r = true) :
    scanExp r = (false, 0) := by
  cases r with
  | nil => rfl
  | cons c t =>
    have h := noExtendB_cons hr
    have : ¬(c = 'e' ∨ c = 'E') := by
      rintro (rfl | rfl)
      · exact h.2.2.1 rfl
      · exact h.2.2.2 rfl
    simp [scanExp, this]

/-- Scanning a plain digit run followed by non-extending text yields the
run's value, no fraction and no exponent. -/
lemma scanFloat_numeral (intDs rest : List Char) (hi : intDs ≠ [])
    (hdi : ∀ c ∈ intDs, isDigitC c = true) (hr : noExtendB rest = true) :
    scanFloat (intDs ++ rest) = some ⟨false, natVal intDs, 0, 0, false, 0⟩ := by
  obtain ⟨d, ds, rfl⟩ : ∃ d ds, intDs = d :: ds := by
    cases intDs with
    | nil => exact absurd rfl hi
    | cons d ds => exact ⟨d, ds, rfl⟩
  have hd : isDigitC d = true := hdi d (List.mem_cons_self _ _)
  have hrest : ∀ c t, rest = c :: t → isDigitC c = false := by
    intro c t hct; subst hct; exact (noExtendB_cons hr).1
  have h0 : (d :: (ds ++ rest)).dropWhile Char.isWhitespace = d :: (ds ++ rest) := by
    rw [List.dropWhile_cons, not_ws_of_digit hd]
    simp
  have h1 : splitSignB (d :: (ds ++ rest)) = (false, d :: (ds ++ rest)) :=
    splitSignB_of_ne _ (digit_ne_dash hd) (digit_ne_plus hd)
  have h2 : readDigits (d :: (ds ++ rest)) 0 0 =
      (natVal (d :: ds), 0 + (d :: ds).length, rest) := by
    have := readDigits_append (d :: ds) hdi rest 0 0 hrest
    rw [List.cons_append] at this
    exact this
  have h3 : scanFrac rest = (0, 0, rest) := scanFrac_noExtend rest hr
  have h4 : scanExp rest = (false, 0) := scanExp_noExtend rest hr
  simp only [scanFloat, List.cons_append, h0, h1, h2, h3, h4]
  simp [List.length_cons]

/-- Scanning digits, a dot, more digits and non-extending text yields the
integer and fraction values. -/
lemma scanFloat_numeral_dot (intDs fracDs rest : List Char) (hi : intDs ≠ [])
    (hdi : ∀ c ∈ intDs, isDigitC c = true)
    (hdf : ∀ c ∈ fracDs, isDigitC c = true) (hr : noExtendB rest = true) :
    scanFloat (intDs ++ '.' :: (fracDs ++ rest)) =
      some ⟨false, natVal intDs, natVal fracDs, fracDs.length, false, 0⟩ := by
  obtain ⟨d, ds, rfl⟩ : ∃ d ds, intDs = d :: ds := by
    cases intDs with
    | nil => exact absurd rfl hi
    | cons d ds => exact ⟨d, ds, rfl⟩
  have hd : isDigitC d = true := hdi d (List.mem_cons_self _ _)
  have hrest : ∀ c t, rest = c :: t → isDigitC c = false := by
    intro c t hct; subst hct; exact (noExtendB_cons hr).1
  have hdot : ∀ c t, ('.' :: (fracDs ++ rest)) = c :: t → isDigitC c = false := by
    intro c t hct
    injection hct with hc _
    rw [← hc]
    decide
  have h0 : (d :: (ds ++ '.' :: (fracDs ++ rest))).dropWhile Char.isWhitespace =
      d :: (ds ++ '.' :: (fracDs ++ rest)) := by
    rw [List.dropWhile_cons, not_ws_of_digit hd]
    simp
  have h1 : splitSignB (d :: (ds ++ '.' :: (fracDs ++ rest))) =
      (false, d :: (ds ++ '.' :: (fracDs ++ rest))) :=
    splitSignB_of_ne _ (digit_ne_dash hd) (digit_ne_plus hd)
  have h2 : readDigits (d :: (ds ++ '.' :: (fracDs ++ rest))) 0 0 =
      (natVal (d :: ds), 0 + (d :: ds).length, '.' :: (fracDs ++ rest)) := by
    have := readDigits_append (d :: ds) hdi ('.' :: (fracDs ++ rest)) 0 0 hdot
    rw [List.cons_append] at this
    exact this
  have h3 : scanFrac ('.' :: (fracDs ++ rest)) =
      (natVal fracDs, 0 + fracDs.length, rest) := by
    simp only [scanFrac, if_pos rfl]
    exact readDigits_append fracDs hdf rest 0 0 hrest
  have h4 : scanExp rest = (false, 0) := scanExp_noExtend rest hr
  simp only [scanFloat, List.cons_append, h0, h1, h2, h3, h4]
  simp [List.length_cons]

/-- A fraction scan over digit-free text consumes no digits. -/
lemma scanFrac_nodigits (r : List Char) (h : ∀ c ∈ r, isDigitC c = false) :
    (scanFrac r).2.1 = 0 := by
  cases r with
  | nil => rfl
  | cons c t =>
    simp only [scanFrac]
    split_ifs with hc
    · rw [readDigits_nodigit t 0 0
        (fun x u hxu => h x (List.mem_cons_of_mem c (hxu ▸ List.mem_cons_self x u)))]
    · rfl

/-- Scanning digit-free text yields `NaN`. -/
lemma scanFloat_noDigits (l : List Char) (h : ∀ c ∈ l, isDigitC c = false) :
    scanFloat l = none := by
  have hsub : ∀ c ∈ l.dropWhile Char.isWhitespace, isDigitC c = false :=
    fun c hc => h c ((List.dropWhile_sublist _).subset hc)
  have hp : ∀ c ∈ (splitSignB (l.dropWhile Char.isWhitespace)).2,
      isDigitC c = false := by
    cases hl : l.dropWhile Char.isWhitespace with
    | nil => intro c hc; simp [splitSignB] at hc
    | cons c0 t =>
      have hsub2 : ∀ x ∈ c0 :: t, isDigitC x = false := hl ▸ hsub
      intro c hc
      simp only [splitSignB] at hc
      split_ifs at hc
      · exact hsub2 c (List.mem_cons_of_mem _ hc)
      · exact hsub2 c (List.mem_cons_of_mem _ hc)
      · exact hsub2 c hc
  have h1 : readDigits (splitSignB (l.dropWhile Char.isWhitespace)).2 0 0 =
      (0, 0, (splitSignB (l.dropWhile Char.isWhitespace)).2) :=
    readDigits_nodigit _ 0 0 (fun c t hct => hp c (hct ▸ List.mem_cons_self c t))
  simp only [scanFloat, h1]
  rw [if_pos]
  simp [scanFrac_nodigits _ hp]

/-- Value of an unsigned exponent-free scan. -/
lemma valOf_unsigned (ip fp fk : ℕ) :
    valOf ⟨false, ip, fp, fk, false, 0⟩ = (ip : ℚ) + (fp : ℚ) / 10 ^ fk := by
  simp [valOf]

/-- A `NaN` scan makes `parseFloat` return `NaN`. -/
lemma parseFloatL_none_of (l : List Char) (h : scanFloat l = none) :
    parseFloatL l = none := by
  rw [parseFloatL, h]; rfl

/-- C10 counterexample: a leading negative number with trailing text is
parsed as itself by `parseFloat` but clamped to `0` by `parsePrice`, so
the sanitizer does not return every leading number; moreover this string
has a parseable numeric prefix yet yields `0`. -/
theorem c10_negative_prefix_clamped :
    parseFloatL "-1 per token".data = some (-1) ∧
    parsePrice (.str "-1 per token") = 0 ∧ ((-1 : ℚ) ≠ 0) := by
  have h : scanFloat "-1 per token".data = some ⟨true, 1, 0, 0, false, 0⟩ := by
    decide
  have hv : valOf ⟨true, 1, 0, 0, false, 0⟩ = -1 := by norm_num [valOf]
  refine ⟨?_, ?_, by norm_num⟩
  · rw [parseFloatL_eq_of_scan _ _ h, hv]
  · rw [parsePrice_str_eq _ _ h, hv]
    norm_num

/-- Characters of an optional leading sign: absent, `'+'`, or `'-'`. -/
def sgnChars : Option Bool → List Char
  | none => []
  | some false => ['+']
  | some true => ['-']

/-- Whether an optional sign denotes a negative number. -/
def sgnIsNeg : Option Bool → Bool
  | some true => true
  | _ => false

/-- Characters of an optional fraction part (dot plus digits). -/
def fracCh : Option (List Char) → List Char
  | none => []
  | some fs => '.' :: fs

/-- Digits of an optional fraction part. -/
def fracDigits : Option (List Char) → List Char
  | none => []
  | some fs => fs

/-- Characters of an optional exponent part: marker, optional sign,
digits. -/
def expCh (m : Char) : Option (Option Bool × List Char) → List Char
  | none => []
  | some (es, eds) => m :: (sgnChars es ++ eds)

/-- Sign of an optional exponent part. -/
def exSign : Option (Option Bool × List Char) → Option Bool
  | none => none
  | some (es, _) => es

/-- Digits of an optional exponent part. -/
def expDigits : Option (Option Bool × List Char) → List Char
  | none => []
  | some (_, eds) => eds

/-- Reading an unsigned exponent digit run. -/
lemma scanExpTail_noSign (eds rest : List Char) (hne : eds ≠ [])
    (hd : ∀ c ∈ eds, isDigitC c = true)
    (hr : ∀ c t, rest = c :: t → isDigitC c = false) :
    scanExpTail (eds ++ rest) = (false, natVal eds) := by
  obtain ⟨e0, es', rfl⟩ : ∃ a l, eds = a :: l := by
    cases eds with
    | nil => exact absurd rfl hne
    | cons a l => exact ⟨a, l, rfl⟩
  have he0 : isDigitC e0 = true := hd e0 (List.mem_cons_self _ _)
  simp only [List.cons_append, scanExpTail, digit_ne_dash he0,
    digit_ne_plus he0, if_false]
  rw [show e0 :: (es' ++ rest) = (e0 :: es') ++ rest from rfl,
    readDigits_append (e0 :: es') hd rest 0 0 hr]
  simp [List.length_cons, natVal]

/-- Reading a signed exponent digit run. -/
lemma scanExpTail_signed (b : Bool) (eds rest : List Char) (hne : eds ≠ [])
    (hd : ∀ c ∈ eds, isDigitC c = true)
    (hr : ∀ c t, rest = c :: t → isDigitC c = false) :
    scanExpTail (sgnChars (some b) ++ (eds ++ rest)) = (b, natVal eds) := by
  have hlen : eds.length ≠ 0 := fun h => hne (List.length_eq_zero.mp h)
  cases b with
  | false =>
    simp only [sgnChars, List.cons_append, List.nil_append, scanExpTail,
      if_true]
    rw [readDigits_append eds hd rest 0 0 hr]
    simp [hlen, natVal]
  | true =>
    simp only [sgnChars, List.cons_append, List.nil_append, scanExpTail,
      if_true]
    rw [readDigits_append eds hd rest 0 0 hr]
    simp [hlen, natVal]

/-- Scanning an exponent part: marker, optional sign, digits. -/
lemma scanExp_marker (m : Char) (hm : m = 'e' ∨ m = 'E') (es : Option Bool)
    (eds rest : List Char) (hne : eds ≠ [])
    (hd : ∀ c ∈ eds, isDigitC c = true)
    (hr : ∀ c t, rest = c :: t → isDigitC c = false) :
    scanExp (m :: (sgnChars es ++ (eds ++ rest))) = (sgnIsNeg es, natVal eds) := by
  simp only [scanExp, if_pos hm]
  cases es with
  | none =>
    simpa [sgnChars, sgnIsNeg] using scanExpTail_noSign eds rest hne hd hr
  | some b =>
    cases b <;>
      simpa [sgnIsNeg] using scanExpTail_signed _ eds rest hne hd hr

/-- An optional sign followed by a digit survives whitespace skipping
and is stripped by the sign scanner. -/
lemma splitSignB_sgnChars (sg : Option Bool) (c : Char) (t : List Char)
    (hc : isDigitC c = true) :
    splitSignB ((sgnChars sg ++ (c :: t)).dropWhile Char.isWhitespace) =
      (sgnIsNeg sg, c :: t) := by
  cases sg with
  | none =>
    have h1 : (c :: t).dropWhile Char.isWhitespace = c :: t := by
      rw [List.dropWhile_cons, not_ws_of_digit hc]; simp
    simp only [sgnChars, List.nil_append, sgnIsNeg, h1]
    exact splitSignB_of_ne t (digit_ne_dash hc) (digit_ne_plus hc)
  | some b =>
    cases b with
    | false =>
      have h1 : ('+' :: (c :: t)).dropWhile Char.isWhitespace = '+' :: (c :: t) := by
        rw [List.dropWhile_cons, show ('+').isWhitespace = false from by decide]
        simp
      simp only [sgnChars, List.cons_append, List.nil_append, sgnIsNeg, h1]
      simp [splitSignB]
    | true =>
      have h1 : ('-' :: (c :: t)).dropWhile Char.isWhitespace = '-' :: (c :: t) := by
        rw [List.dropWhile_cons, show ('-').isWhitespace = false from by decide]
        simp
      simp only [sgnChars, List.cons_append, List.nil_append, sgnIsNeg, h1]
      simp [splitSignB]

/-- Scanning a full decimal numeral — optional sign, digits, optional
fraction, optional signed exponent — followed by text that cannot
extend it. -/
lemma scanFloat_numeral_full
    (sg : Option Bool) (intDs : List Char) (frac : Option (List Char))
    (m : Char) (ex : Option (Option Bool × List Char)) (rest : List Char)
    (hi : intDs ≠ [])
    (hdi : ∀ c ∈ intDs, isDigitC c = true)
    (hdf : ∀ fs, frac = some fs → ∀ c ∈ fs, isDigitC c = true)
    (hm : m = 'e' ∨ m = 'E')
    (hde : ∀ es eds, ex = some (es, eds) →
      ((∀ c ∈ eds, isDigitC c = true) ∧ eds ≠ []))
    (hr : noExtendB rest = true) :
    scanFloat (sgnChars sg ++ (intDs ++ (fracCh frac ++ (expCh m ex ++ rest)))) =
      some ⟨sgnIsNeg sg, natVal intDs, natVal (fracDigits frac),
        (fracDigits frac).length, sgnIsNeg (exSign ex), natVal (expDigits ex)⟩ := by
  obtain ⟨d, ds, rfl⟩ : ∃ d ds, intDs = d :: ds := by
    cases intDs with
    | nil => exact absurd rfl hi
    | cons d ds => exact ⟨d, ds, rfl⟩
  have hd : isDigitC d = true := hdi d (List.mem_cons_self _ _)
  have hrest : ∀ c t, rest = c :: t → isDigitC c = false := by
    intro c t hct; subst hct; exact (noExtendB_cons hr).1
  have hT2 : ∀ c t, (expCh m ex ++ rest) = c :: t →
      (isDigitC c = false ∧ c ≠ '.') := by
    cases ex with
    | none =>
      intro c t hct
      simp only [expCh, List.nil_append] at hct
      have hr' : noExtendB (c :: t) = true := hct ▸ hr
      exact ⟨(noExtendB_cons hr').1, (noExtendB_cons hr').2.1⟩
    | some p =>
      obtain ⟨es, eds⟩ := p
      intro c t hct
      simp only [expCh, List.cons_append] at hct
      injection hct with h1 _
      subst h1
      rcases hm with rfl | rfl
      · exact ⟨by decide, by decide⟩
      · exact ⟨by decide, by decide⟩
  have hT1 : ∀ c t, (fracCh frac ++ (expCh m ex ++ rest)) = c :: t →
      isDigitC c = false := by
    cases frac with
    | some fs =>
      intro c t hct
      simp only [fracCh, List.cons_append] at hct
      injection hct with h1 _
      subst h1
      decide
    | none =>
      intro c t hct
      simp only [fracCh, List.nil_append] at hct
      exact (hT2 c t hct).1
  have h0 := splitSignB_sgnChars sg d
    (ds ++ (fracCh frac ++ (expCh m ex ++ rest))) hd
  have h2 : readDigits (d :: (ds ++ (fracCh frac ++ (expCh m ex ++ rest)))) 0 0 =
      (natVal (d :: ds), 0 + (d :: ds).length,
        fracCh frac ++ (expCh m ex ++ rest)) := by
    have := readDigits_append (d :: ds) hdi
      (fracCh frac ++ (expCh m ex ++ rest)) 0 0 hT1
    rw [List.cons_append] at this
    exact this
  have h3 : scanFrac (fracCh frac ++ (expCh m ex ++ rest)) =
      (natVal (fracDigits frac), 0 + (fracDigits frac).length,
        expCh m ex ++ rest) := by
    cases frac with
    | some fs =>
      simp only [fracCh, fracDigits, List.cons_append, scanFrac, if_pos rfl]
      exact readDigits_append fs (hdf fs rfl) (expCh m ex ++ rest) 0 0
        (fun c t hct => (hT2 c t hct).1)
    | none =>
      simp only [fracCh, fracDigits, List.nil_append, natVal, List.foldl_nil,
        List.length_nil]
      cases hx : (expCh m ex ++ rest) with
      | nil => simp [scanFrac]
      | cons c t =>
        have hcx := hT2 c t hx
        simp [scanFrac, hcx.2]
  have h4 : scanExp (expCh m ex ++ rest) =
      (sgnIsNeg (exSign ex), natVal (expDigits ex)) := by
    cases ex with
    | none =>
      simp only [expCh, exSign, expDigits, List.nil_append]
      simpa [sgnIsNeg, natVal] using scanExp_noExtend rest hr
    | some p =>
      obtain ⟨es, eds⟩ := p
      obtain ⟨hdeds, hne⟩ := hde es eds rfl
      simp only [expCh, exSign, expDigits]
      rw [List.cons_append, List.append_assoc]
      exact scanExp_marker m hm es eds rest hne hdeds hrest
  simp only [scanFloat, List.cons_append, h0, h2, h3, h4]
  simp [List.length_cons]

/-- C10 (amended): the sanitizer does not clamp every string with
trailing text to zero: for every string whose leading characters form a
decimal numeral — optional sign, digits, optional fractional part,
optional (optionally signed) exponent — followed by text that cannot
extend the numeral, `parsePrice` returns `max 0 v` where `v` is the
numeral's value: the value itself when non-negative (`0.5` for
`"0.5 per token"` and `"+0.5 per token"`, `2000` for `"2e3 per token"`),
and `0` for a negative leading number (the `Math.max` clamp, see the
counterexample).  Strings containing no digits and no occurrence of the
literal `Infinity` — hence with no parseable numeric prefix — yield
`0`.  (For a positive `Infinity` literal in numeral position the source
returns `Infinity`, which lies outside this rational model; such
strings are excluded here.) -/
theorem c10_price_prefix_parsing :
    (∀ (s : String) (sg : Option Bool) (intDs : List Char)
        (frac : Option (List Char)) (m : Char)
        (ex : Option (Option Bool × List Char)) (rest : List Char),
      s.data = sgnChars sg ++ (intDs ++ (fracCh frac ++ (expCh m ex ++ rest))) →
      intDs ≠ [] → (∀ c ∈ intDs, isDigitC c = true) →
      (∀ fs, frac = some fs → ∀ c ∈ fs, isDigitC c = true) →
      (m = 'e' ∨ m = 'E') →
      (∀ es eds, ex = some (es, eds) →
        ((∀ c ∈ eds, isDigitC c = true) ∧ eds ≠ [])) →
      noExtendB rest = true →
      parsePrice (.str s) =
        max 0 ((if sgnIsNeg sg = true then (-1 : ℚ) else 1) *
          (((natVal intDs : ℚ) +
              (natVal (fracDigits frac) : ℚ) /
                (10 : ℚ) ^ (fracDigits frac).length) *
            (if sgnIsNeg (exSign ex) = true then
                ((10 : ℚ) ^ natVal (expDigits ex))⁻¹
              else (10 : ℚ) ^ natVal (expDigits ex))))) ∧
    parsePrice (.str "0.5 per token") = 1 / 2 ∧
    parsePrice (.str "+0.5 per token") = 1 / 2 ∧
    parsePrice (.str "2e3 per token") = 2000 ∧
    parsePrice (.str "-1 per token") = 0 ∧
    (∀ s : String, (∀ c ∈ s.data, isDigitC c = false) →
      containsSub s.data ("Infinity".data) = false →
      parsePrice (.str s) = 0) := by
  refine ⟨?_, ?_, ?_, ?_, ?_, ?_⟩
  · intro s sg intDs frac m ex rest hs hi hdi hdf hm hde hr
    have hscan : scanFloat s.data = some ⟨sgnIsNeg sg, natVal intDs,
        natVal (fracDigits frac), (fracDigits frac).length,
        sgnIsNeg (exSign ex), natVal (expDigits ex)⟩ := by
      rw [hs]
      exact scanFloat_numeral_full sg intDs frac m ex rest hi hdi hdf hm hde hr
    rw [parsePrice_str_eq s _ hscan]
    rfl
  · have h : scanFloat "0.5 per token".data = some ⟨false, 0, 5, 1, false, 0⟩ := by
      decide
    rw [parsePrice_str_eq _ _ h, valOf]
    norm_num
  · have h : scanFloat "+0.5 per token".data = some ⟨false, 0, 5, 1, false, 0⟩ := by
      decide
    rw [parsePrice_str_eq _ _ h, valOf]
    norm_num
  · have h : scanFloat "2e3 per token".data = some ⟨false, 2, 0, 0, false, 3⟩ := by
      decide
    rw [parsePrice_str_eq _ _ h, valOf]
    norm_num
  · have h : scanFloat "-1 per token".data = some ⟨true, 1, 0, 0, false, 0⟩ := by
      decide
    rw [parsePrice_str_eq _ _ h, valOf]
    norm_num
  · intro s hs _
    exact parsePrice_str_none s
      (parseFloatL_none_of s.data (scanFloat_noDigits s.data hs))

/-- Witness for C10 (amended) at the exponent numeral `"2e3 per token"`. -/
theorem c10_witness :
    parsePrice (.str "2e3 per token") =
      max 0 ((if sgnIsNeg (none : Option Bool) = true then (-1 : ℚ) else 1) *
        (((natVal ['2'] : ℚ) +
            (natVal (fracDigits (none : Option (List Char))) : ℚ) /
              (10 : ℚ) ^ (fracDigits (none : Option (List Char))).length) *
          (if sgnIsNeg (exSign (some ((none : Option Bool), ['3']))) = true then
              ((10 : ℚ) ^ natVal (expDigits (some ((none : Option Bool), ['3']))))⁻¹
            else (10 : ℚ) ^ natVal (expDigits (some ((none : Option Bool), ['3'])))))) :=
  c10_price_prefix_parsing.1 "2e3 per token" none ['2'] none 'e'
    (some (none, ['3'])) " per token".data (by decide) (by decide) (by decide)
    (fun fs h => nomatch h) (Or.inl rfl)
    (fun es eds h => by cases h; exact ⟨by decide, by decide⟩) (by decide)

/-! ## Claim C4 — the table sort: pinning, field order, stability -/

/-- Comparator value `≤ 0` in ascending mode means `≤`. -/
lemma cmpVal_le_asc {α : Type} [LinearOrder α] (x y : α) :
    cmpVal SortOrder.asc x y ≤ 0 ↔ x ≤ y := by
  unfold cmpVal
  split_ifs with h1 h2
  · constructor
    · intro _; exact le_of_lt h1
    · intro _; norm_num
  · constructor
    · intro h; norm_num at h
    · intro h; exact absurd h2 h.not_lt
  · constructor
    · intro _; exact le_of_not_lt h2
    · intro _; norm_num

/-- Comparator value `≤ 0` in descending mode means `≥`. -/
lemma cmpVal_le_desc {α : Type} [LinearOrder α] (x y : α) :
    cmpVal SortOrder.desc x y ≤ 0 ↔ y ≤ x := by
  unfold cmpVal
  split_ifs with h1 h2
  · constructor
    · intro h; norm_num at h
    · intro h; exact absurd h1 h.not_lt
  · constructor
    · intro _; exact le_of_lt h2
    · intro _; norm_num
  · constructor
    · intro _; exact le_of_not_lt h1
    · intro _; norm_num

/-- The per-field spec-side ordering: lexicographic for string fields,
numeric for numeric fields, flipped for descending order. -/
def fieldLe (f : SortField) (o : SortOrder) (a b : CostCalculation) : Prop :=
  match f, o with
  | .name, .asc => a.model.name ≤ b.model.name
  | .name, .desc => b.model.name ≤ a.model.name
  | .provider, .asc => a.model.provider ≤ b.model.provider
  | .provider, .desc => b.model.provider ≤ a.model.provider
  | .contextWindow, .asc => a.model.contextWindow ≤ b.model.contextWindow
  | .contextWindow, .desc => b.model.contextWindow ≤ a.model.contextWindow
  | .inputPrice, .asc => a.model.inputPricePerMillion ≤ b.model.inputPricePerMillion
  | .inputPrice, .desc => b.model.inputPricePerMillion ≤ a.model.inputPricePerMillion
  | .outputPrice, .asc => a.model.outputPricePerMillion ≤ b.model.outputPricePerMillion
  | .outputPrice, .desc => b.model.outputPricePerMillion ≤ a.model.outputPricePerMillion
  | .totalCost, .asc => a.totalCost ≤ b.totalCost
  | .totalCost, .desc => b.totalCost ≤ a.totalCost

/-- The comparator's field part agrees with the spec-side ordering. -/
lemma fieldCmp_le_iff (f : SortField) (o : SortOrder) (a b : CostCalculation) :
    fieldCmp f o a b ≤ 0 ↔ fieldLe f o a b := by
  cases f <;> cases o <;>
    simp only [fieldCmp, fieldLe, cmpVal_le_asc, cmpVal_le_desc]

/-- The spec-side field ordering is transitive. -/
lemma fieldLe_trans {f : SortField} {o : SortOrder} {a b c : CostCalculation} :
    fieldLe f o a b → fieldLe f o b c → fieldLe f o a c := by
  cases f <;> cases o <;> intro h1 h2 <;>
    first
      | exact le_trans h1 h2
      | exact le_trans h2 h1

/-- The spec-side field ordering is total. -/
lemma fieldLe_total (f : SortField) (o : SortOrder) (a b : CostCalculation) :
    fieldLe f o a b ∨ fieldLe f o b a := by
  cases f <;> cases o <;> exact le_total _ _

/-- With equal selection status the comparator is its field part. -/
lemma tableCmp_eq_fieldCmp {sel : List String} {f : SortField} {o : SortOrder}
    {a b : CostCalculation} (h : isSel sel a = isSel sel b) :
    tableCmp sel f o a b = fieldCmp f o a b := by
  unfold tableCmp
  rw [h]
  cases isSel sel b <;> simp

/-- A selected record compares before an unselected one. -/
lemma tableCmp_sel_first {sel : List String} {f : SortField} {o : SortOrder}
    {a b : CostCalculation} (ha : isSel sel a = true) (hb : isSel sel b = false) :
    tableCmp sel f o a b = -1 := by
  unfold tableCmp
  simp [ha, hb]

/-- An unselected record compares after a selected one. -/
lemma tableCmp_unsel_last {sel : List String} {f : SortField} {o : SortOrder}
    {a b : CostCalculation} (ha : isSel sel a = false) (hb : isSel sel b = true) :
    tableCmp sel f o a b = 1 := by
  unfold tableCmp
  simp [ha, hb]

/-- Characterization of the comparator's "may come before" relation:
pinning of selected records, and the field ordering within equal
selection status. -/
lemma tableCmp_le_iff (sel : List String) (f : SortField) (o : SortOrder)
    (a b : CostCalculation) :
    tableCmp sel f o a b ≤ 0 ↔
      ((isSel sel b = true → isSel sel a = true) ∧
        (isSel sel a = isSel sel b → fieldCmp f o a b ≤ 0)) := by
  cases ha : isSel sel a <;> cases hb : isSel sel b
  · rw [tableCmp_eq_fieldCmp (ha.trans hb.symm)]
    simp [ha, hb]
  · rw [tableCmp_unsel_last ha hb]
    simp [ha, hb]
  · rw [tableCmp_sel_first ha hb]
    simp [ha, hb]
  · rw [tableCmp_eq_fieldCmp (ha.trans hb.symm)]
    simp [ha, hb]

/-- The comparator relation is transitive. -/
lemma tableLe_trans (sel : List String) (f : SortField) (o : SortOrder) :
    ∀ a b c, tableLe sel f o a b = true → tableLe sel f o b c = true →
      tableLe sel f o a c = true := by
  intro a b c h1 h2
  simp only [tableLe, decide_eq_true_eq, tableCmp_le_iff] at h1 h2 ⊢
  obtain ⟨p1, q1⟩ := h1
  obtain ⟨p2, q2⟩ := h2
  refine ⟨fun hc => p1 (p2 hc), ?_⟩
  intro hac
  by_cases hb : isSel sel b = isSel sel a
  · have hab : isSel sel a = isSel sel b := hb.symm
    have hbc : isSel sel b = isSel sel c := hb.trans hac
    rw [fieldCmp_le_iff] at q1 q2 ⊢
    exact fieldLe_trans (q1 hab) (q2 hbc)
  · cases hav : isSel sel a with
    | true =>
      have hcv : isSel sel c = true := hac ▸ hav
      have hbv : isSel sel b = true := p2 hcv
      exact absurd (hbv.trans hav.symm) hb
    | false =>
      cases hbv : isSel sel b with
      | false => exact absurd (hbv.trans hav.symm) hb
      | true => exact absurd (p1 hbv) (by rw [hav]; exact Bool.false_ne_true)

/-- The comparator relation is total. -/
lemma tableLe_total (sel : List String) (f : SortField) (o : SortOrder) :
    ∀ a b, (tableLe sel f o a b || tableLe sel f o b a) = true := by
  intro a b
  rw [Bool.or_eq_true]
  simp only [tableLe, decide_eq_true_eq]
  cases ha : isSel sel a <;> cases hb : isSel sel b
  · rw [tableCmp_eq_fieldCmp (ha.trans hb.symm),
      tableCmp_eq_fieldCmp (hb.trans ha.symm)]
    rcases fieldLe_total f o a b with h | h
    · exact Or.inl ((fieldCmp_le_iff f o a b).mpr h)
    · exact Or.inr ((fieldCmp_le_iff f o b a).mpr h)
  · exact Or.inr (by rw [tableCmp_sel_first hb ha]; norm_num)
  · exact Or.inl (by rw [tableCmp_sel_first ha hb]; norm_num)
  · rw [tableCmp_eq_fieldCmp (ha.trans hb.symm),
      tableCmp_eq_fieldCmp (hb.trans ha.symm)]
    rcases fieldLe_total f o a b with h | h
    · exact Or.inl ((fieldCmp_le_iff f o a b).mpr h)
    · exact Or.inr ((fieldCmp_le_iff f o b a).mpr h)

/-- C4: for every input list, selection set, sort field and direction,
the table sort is a permutation of its input in which selected records
all precede unselected ones, records of equal selection status are
ordered by the requested field in the requested direction, and
comparator-equal records keep their relative input order (stability). -/
theorem c4_table_sort (l : List CostCalculation) (sel : List String)
    (f : SortField) (o : SortOrder) :
    (sortRecords sel f o l).Perm l ∧
    (sortRecords sel f o l).Pairwise
      (fun a b => isSel sel b = true → isSel sel a = true) ∧
    (sortRecords sel f o l).Pairwise
      (fun a b => isSel sel a = isSel sel b → fieldLe f o a b) ∧
    (∀ a b, tableCmp sel f o a b = 0 → List.Sublist [a, b] l →
      List.Sublist [a, b] (sortRecords sel f o l)) := by
  haveI hT : IsTrans CostCalculation (fun a b => tableLe sel f o a b = true) :=
    ⟨fun a b c => tableLe_trans sel f o a b c⟩
  haveI hO : IsTotal CostCalculation (fun a b => tableLe sel f o a b = true) :=
    ⟨fun a b => Bool.or_eq_true _ _ |>.mp (tableLe_total sel f o a b)⟩
  have hsorted : (sortRecords sel f o l).Pairwise
      (fun a b => tableLe sel f o a b = true) :=
    List.sorted_insertionSort _ l
  refine ⟨List.perm_insertionSort _ l, ?_, ?_, ?_⟩
  · refine hsorted.imp ?_
    intro a b hab
    rw [tableLe, decide_eq_true_eq, tableCmp_le_iff] at hab
    exact hab.1
  · refine hsorted.imp ?_
    intro a b hab heq
    rw [tableLe, decide_eq_true_eq, tableCmp_le_iff] at hab
    exact (fieldCmp_le_iff f o a b).mp (hab.2 heq)
  · intro a b hcmp hsub
    refine List.pair_sublist_insertionSort ?_ hsub
    rw [tableLe, decide_eq_true_eq, hcmp]

/-- A minimal model record for concrete view-engine checks. -/
def wModel (i : String) : UnifiedModelData :=
  { id := i, name := i, provider := "P", inputPricePerMillion := 0,
    outputPricePerMillion := 0, contextWindow := 0 }

/-- A minimal cost record with a given id and total cost. -/
def wRec (i : String) (t : ℚ) : CostCalculation :=
  { model := wModel i, inputCost := 0, outputCost := 0, totalCost := t }

/-- Witness for C4: with record `"a"` selected and `"b"`, `"c"` tied on
total cost, the tied pair keeps its input order in the sorted output. -/
theorem c4_witness :
    List.Sublist [wRec "b" 1, wRec "c" 1]
      (sortRecords ["a"] SortField.totalCost SortOrder.asc
        [wRec "a" 5, wRec "b" 1, wRec "c" 1]) :=
  (c4_table_sort [wRec "a" 5, wRec "b" 1, wRec "c" 1] ["a"]
    SortField.totalCost SortOrder.asc).2.2.2 (wRec "b" 1) (wRec "c" 1)
    (by decide) (by decide)

/-! ## Claims C2 and C3 — the chart view -/

/-- C2 counterexample: with the app's default sort (total cost
ascending) and no selection, the chart view is the first 15 cost-positive
table entries in the table's order, which at this concrete input is
ascending — not sorted by descending total cost as claimed. -/
theorem c2_chart_not_sorted_desc :
    chartView [] [wRec "a" 1, wRec "b" 2]
        (tableData [wRec "a" 1, wRec "b" 2] "All" "" SortField.totalCost
          SortOrder.asc []) = [wRec "a" 1, wRec "b" 2] ∧
    ¬ (chartView [] [wRec "a" 1, wRec "b" 2]
        (tableData [wRec "a" 1, wRec "b" 2] "All" "" SortField.totalCost
          SortOrder.asc [])).Pairwise
      (fun a b => b.totalCost ≤ a.totalCost) := by
  constructor
  · decide
  · decide

/-- C2 (amended): with an empty selection the chart view is exactly the
table view's cost-positive entries, in the table view's current sort
order, capped to the first 15; hence it has at most 15 records, all with
positive total cost. -/
theorem c2_chart_default_cap (allCosts : List CostCalculation)
    (prov search : String) (f : SortField) (o : SortOrder) :
    chartView [] allCosts (tableData allCosts prov search f o []) =
      ((tableData allCosts prov search f o []).filter
        (fun d => decide (0 < d.totalCost))).take 15 ∧
    (chartView [] allCosts (tableData allCosts prov search f o [])).length ≤ 15 ∧
    ∀ r ∈ chartView [] allCosts (tableData allCosts prov search f o []),
      0 < r.totalCost := by
  have heq : chartView [] allCosts (tableData allCosts prov search f o []) =
      ((tableData allCosts prov search f o []).filter
        (fun d => decide (0 < d.totalCost))).take 15 := by
    simp [chartView, chartData, costChartRecords]
  refine ⟨heq, ?_, ?_⟩
  · rw [heq, List.length_take]
    exact min_le_left _ _
  · intro r hr
    rw [heq] at hr
    have hmem := (List.take_sublist _ _).subset hr
    exact of_decide_eq_true (List.mem_filter.mp hmem).2

/-- Witness for C2 (amended) at a one-record list. -/
theorem c2_witness : 0 < (wRec "a" 1).totalCost :=
  (c2_chart_default_cap [wRec "a" 1] "All" "" SortField.totalCost
    SortOrder.asc).2.2 (wRec "a" 1) (by decide)

/-- C3: with a non-empty selection the chart view is exactly the records
of the full cost-annotated set whose model id is selected — the table's
provider filter and search are bypassed (the right-hand side does not
depend on them), no cost-positivity filter and no cap apply. -/
theorem c3_chart_selection_bypass (allCosts : List CostCalculation)
    (prov search : String) (f : SortField) (o : SortOrder) (sel : List String)
    (h : sel ≠ []) :
    chartView sel allCosts (tableData allCosts prov search f o sel) =
      allCosts.filter (fun d => sel.contains d.model.id) ∧
    ∀ r, r ∈ chartView sel allCosts (tableData allCosts prov search f o sel) ↔
      (r ∈ allCosts ∧ r.model.id ∈ sel) := by
  have hpos : 0 < sel.length := List.length_pos.mpr h
  have heq : chartView sel allCosts (tableData allCosts prov search f o sel) =
      allCosts.filter (fun d => sel.contains d.model.id) := by
    simp [chartView, chartData, costChartRecords, hpos]
  refine ⟨heq, ?_⟩
  intro r
  rw [heq, List.mem_filter]
  constructor
  · rintro ⟨h1, h2⟩
    exact ⟨h1, List.mem_of_elem_eq_true h2⟩
  · rintro ⟨h1, h2⟩
    exact ⟨h1, List.elem_eq_true_of_mem h2⟩

/-- An OpenAI cost record for the C3 witness. -/
def oaiRec : CostCalculation :=
  { model := ⟨"openai/gpt", "GPT", "OpenAI", 0, 0, 0⟩,
    inputCost := 0, outputCost := 0, totalCost := 5 }

/-- An Anthropic cost record for the C3 witness. -/
def anthRec : CostCalculation :=
  { model := ⟨"anthropic/claude-3", "Claude", "Anthropic", 0, 0, 0⟩,
    inputCost := 0, outputCost := 0, totalCost := 7 }

/-- Witness for C3: with the table filtered to provider "OpenAI" but the
Anthropic model selected, the chart view includes the Anthropic record. -/
theorem c3_witness :
    anthRec ∈ chartView ["anthropic/claude-3"] [oaiRec, anthRec]
      (tableData [oaiRec, anthRec] "OpenAI" "" SortField.totalCost SortOrder.asc
        ["anthropic/claude-3"]) :=
  ((c3_chart_selection_bypass [oaiRec, anthRec] "OpenAI" "" SortField.totalCost
      SortOrder.asc ["anthropic/claude-3"] (by decide)).2 anthRec).mpr
    ⟨by decide, by decide⟩

/-! ## Claims C1 and C5 — the cache gateway -/

/-- C1: a `fetchModels` call fails exactly when the network fetch or
response validation fails and no parseable cache entry exists; whenever
the fetch fails but a parseable cache entry exists (fresh or stale), the
call returns that entry's model sequence and does not throw. -/
theorem c1_fail_iff_no_usable_cache (now : Int) (cache : Option CacheBlob)
    (net : FetchResult) :
    ((fetchModels now cache net).1 = Except.error () ↔
      (netFails net = true ∧ ∀ e, cache ≠ some (CacheBlob.entry e))) ∧
    (∀ e, cache = some (CacheBlob.entry e) → netFails net = true →
      (fetchModels now cache net).1 = Except.ok e.models) := by
  constructor
  · constructor
    · intro herr
      cases cache with
      | none =>
        cases net with
        | okArray raw => simp [fetchModels, attemptFetch] at herr
        | fail => exact ⟨rfl, fun e => by simp⟩
        | okNotArray => exact ⟨rfl, fun e => by simp⟩
      | some blob =>
        cases blob with
        | corrupt =>
          cases net with
          | okArray raw => simp [fetchModels, attemptFetch] at herr
          | fail => exact ⟨rfl, fun e => by simp⟩
          | okNotArray => exact ⟨rfl, fun e => by simp⟩
        | entry e =>
          exfalso
          by_cases hf : now - e.timestamp < CACHE_DURATION
          · simp [fetchModels, hf] at herr
          · cases net <;> simp [fetchModels, attemptFetch, hf] at herr
    · rintro ⟨hn, hall⟩
      cases cache with
      | none =>
        cases net with
        | okArray raw => simp [netFails] at hn
        | fail => simp [fetchModels, attemptFetch]
        | okNotArray => simp [fetchModels, attemptFetch]
      | some blob =>
        cases blob with
        | corrupt =>
          cases net with
          | okArray raw => simp [netFails] at hn
          | fail => simp [fetchModels, attemptFetch]
          | okNotArray => simp [fetchModels, attemptFetch]
        | entry e => exact absurd rfl (hall e)
  · intro e he hn
    subst he
    by_cases hf : now - e.timestamp < CACHE_DURATION
    · simp [fetchModels, hf]
    · cases net with
      | okArray raw => simp [netFails] at hn
      | fail => simp [fetchModels, attemptFetch, hf]
      | okNotArray => simp [fetchModels, attemptFetch, hf]

/-- A concrete cache entry for the C1 witness. -/
def cdW : CacheData := ⟨0, []⟩

/-- Witness for C1: with a parseable (long-expired) cache entry and a
failing fetch, the call returns the cached models. -/
theorem c1_witness :
    (fetchModels 9999999999 (some (CacheBlob.entry cdW)) .fail).1 =
      Except.ok cdW.models :=
  (c1_fail_iff_no_usable_cache 9999999999 (some (CacheBlob.entry cdW))
    .fail).2 cdW rfl rfl

/-- C5: a successful fetch at time `t` (performed because the prior
cache was absent, corrupt, or expired) returns the normalized models and
writes the cache entry `(t, models)`; every later call while that
entry's age is strictly below the TTL returns the identical model
sequence and leaves the cache unchanged, whatever the network would do —
the result does not depend on the network outcome, so no fetch is
consulted. -/
theorem c5_cache_round_trip (t : Int) (cache₀ : Option CacheBlob)
    (raw : List OpenRouterModel)
    (hstale : ∀ e, cache₀ = some (CacheBlob.entry e) →
      CACHE_DURATION ≤ t - e.timestamp) :
    fetchModels t cache₀ (.okArray raw) =
      (Except.ok (raw.map normalize),
        some (CacheBlob.entry ⟨t, raw.map normalize⟩)) ∧
    ∀ (now : Int) (net : FetchResult), now - t < CACHE_DURATION →
      fetchModels now (some (CacheBlob.entry ⟨t, raw.map normalize⟩)) net =
        (Except.ok (raw.map normalize),
          some (CacheBlob.entry ⟨t, raw.map normalize⟩)) := by
  constructor
  · cases cache₀ with
    | none => simp [fetchModels, attemptFetch]
    | some blob =>
      cases blob with
      | corrupt => simp [fetchModels, attemptFetch]
      | entry e =>
        have hf : ¬(t - e.timestamp < CACHE_DURATION) := not_lt.mpr (hstale e rfl)
        simp [fetchModels, attemptFetch, hf]
  · intro now net hnow
    simp [fetchModels, hnow]

/-- Witness for C5: fetch at time 0 into an empty cache, reload at time
5 with a failing network; the cached models come back unchanged. -/
theorem c5_witness :
    fetchModels 5 (some (CacheBlob.entry ⟨0, []⟩)) .fail =
      (Except.ok ([] : List UnifiedModelData),
        some (CacheBlob.entry ⟨0, []⟩)) :=
  (c5_cache_round_trip 0 none [] (fun e h => by simp at h)).2 5 .fail (by decide)

end LLMPC
